import Mathlib

set_option maxRecDepth 4000

/-!
Verification of the schema-to-type resolver and model synthesizer of
`openapi_to_pydantic` (file `openapi_to_pydantic.py`).  The Python code is
shallowly embedded: JSON documents become the inductive `Json`, the Python
`ast` nodes built by the code become `PyExpr`/`PyStmt`, exceptions become
`Except String`.  Each definition mirrors one Python function, keeping its
name and its `match` dispatch order.  The two recursive functions
(`has_ref`, `get_type_annotation`) recurse through key lookups, not
through subterms, so they are defined over an explicit recursion-depth
bound (`jsize`, an upper bound the recursion can never exhaust); the
theorems `has_ref_eq` and `get_type_annotation_eq` restate them as the
direct recursive equations of the source.
-/

/-- A parsed JSON/YAML value.  Objects are ordered association lists, as
Python `dict`s preserve insertion order. -/
inductive Json where
  | str : String → Json
  | int : Int → Json
  | bool : Bool → Json
  | null : Json
  | arr : List Json → Json
  | obj : List (String × Json) → Json
deriving Repr

/-- Lookup in an association list (Python `d[k]` / key pattern match on a
`dict`); first binding of the key wins, as keys are unique in a `dict`. -/
def lookupKV : List (String × Json) → String → Option Json
  | [], _ => none
  | (k, v) :: rest, key => if k = key then some v else lookupKV rest key

/-- Key lookup on a `Json` value; `none` when the value is not an object or
the key is absent.  Python mapping patterns fail to match in both cases. -/
def Json.lookup : Json → String → Option Json
  | .obj kvs, key => lookupKV kvs key
  | _, _ => none

/-- `config` has key "type" bound to the string `t` (Python pattern
`{"type": t}` with a literal). -/
def typeIs (config : Json) (t : String) : Bool :=
  match config.lookup "type" with
  | some (.str s) => s = t
  | _ => false

/-- `config` has key `k` bound to the string `v`. -/
def keyIs (config : Json) (k v : String) : Bool :=
  match config.lookup k with
  | some (.str s) => s = v
  | _ => false

/-- Python `obj[segment]` (`operator.getitem`): key lookup on a mapping,
`KeyError` when absent, `TypeError` on a non-mapping (the traversal segments
are strings, so list indexing cannot succeed). -/
def jsonGetItem (j : Json) (k : String) : Except String Json :=
  match j with
  | .obj kvs =>
    match lookupKV kvs k with
    | some v => .ok v
    | none => .error ("KeyError: " ++ k)
  | _ => .error ("TypeError: value is not subscriptable by " ++ k)

mutual

/-- Size of a `Json` value, the recursion-depth bound used for the two
key-lookup-recursive functions of the source. -/
def jsize : Json → Nat
  | .str _ => 1
  | .int _ => 1
  | .bool _ => 1
  | .null => 1
  | .arr l => 1 + jsizeL l
  | .obj kvs => 1 + jsizeKV kvs

/-- Summed size of an array's elements. -/
def jsizeL : List Json → Nat
  | [] => 0
  | x :: xs => 1 + jsize x + jsizeL xs

/-- Summed size of an object's values. -/
def jsizeKV : List (String × Json) → Nat
  | [] => 0
  | kv :: rest => 1 + jsize kv.2 + jsizeKV rest

end

theorem jsize_pos (j : Json) : 0 < jsize j := by
  cases j <;> simp [jsize]

theorem lookupKV_jsize {kvs : List (String × Json)} {key : String} {v : Json}
    (h : lookupKV kvs key = some v) : jsize v ≤ jsizeKV kvs := by
  induction kvs with
  | nil => simp [lookupKV] at h
  | cons kv rest ih =>
    obtain ⟨k, w⟩ := kv
    simp only [lookupKV] at h
    split at h
    · cases h
      simp only [jsizeKV]
      omega
    · have := ih h
      simp only [jsizeKV]
      omega

theorem lookup_jsize {config : Json} {key : String} {v : Json}
    (h : config.lookup key = some v) : jsize v < jsize config := by
  cases config <;> simp [Json.lookup] at h
  case obj kvs =>
    have := lookupKV_jsize h
    simp only [jsize]
    omega

theorem jsizeL_mem {a : Json} {l : List Json} (h : a ∈ l) :
    jsize a ≤ jsizeL l := by
  induction l with
  | nil => simp at h
  | cons x xs ih =>
    rcases List.mem_cons.mp h with h | h
    · subst h
      simp only [jsizeL]
      omega
    · have := ih h
      simp only [jsizeL]
      omega

theorem jsize_mem_arr {a : Json} {l : List Json} (h : a ∈ l) :
    jsize a < jsize (Json.arr l) := by
  have := jsizeL_mem h
  simp only [jsize]
  omega

/-- Fuel-bounded form of `has_ref`; `has_ref` instantiates the bound with
`jsize config`, which `has_ref_fuel_mono` shows is never exhausted. -/
def has_ref_fuel : Nat → Json → Bool
  | 0, _ => false
  | fuel + 1, config =>
    if (config.lookup "$ref").isSome then true
    else
      match (if typeIs config "array" then config.lookup "items" else none) with
      | some items => has_ref_fuel fuel items
      | none =>
        match config.lookup "anyOf" with
        | some (.arr l) => l.any (fun x => has_ref_fuel fuel x)
        | _ => false

/-- `has_ref(config)`: recursive scan of a raw schema config for a `$ref`
occurrence, with the source's first-match-wins dispatch: a direct `$ref`
key, else the `items` of a `{"type": "array", "items": ...}` node, else
`any(map(has_ref, items))` over an `anyOf` sequence.  (`anyOf` values that
are not sequences, which would raise on iteration in the original, do not
occur in the claims and scan as ref-free here.)  The recursive equation is
`has_ref_eq`. -/
def has_ref (config : Json) : Bool :=
  has_ref_fuel (jsize config) config

/-- Split a character list at every occurrence of `sep`, keeping empty
segments (the behaviour of Python `s.split(sep)` for a one-character
separator). -/
def splitChar (sep : Char) : List Char → List (List Char)
  | [] => [[]]
  | c :: rest =>
    match splitChar sep rest with
    | s :: ss => if c = sep then [] :: s :: ss else (c :: s) :: ss
    | [] => if c = sep then [[], []] else [[c]]

/-- Python `ref.split("/")`. -/
def pySplitSlash (s : String) : List String :=
  (splitChar '/' s.data).map String.mk

/-- Python `s.startswith(pre)`. -/
def pyStartsWith (s pre : String) : Bool :=
  pre.data.isPrefixOf s.data

/-- The Python expressions the synthesizer builds (`ast.Name`,
`ast.Attribute`, `ast.Subscript`, `ast.Constant`, `ast.Tuple`, `ast.Call`).
The `ctx` fields (`Load`/`Store`) carry no meaning for the generated code
and are not modelled. -/
inductive PyExpr where
  | Name : String → PyExpr
  | Attribute : PyExpr → String → PyExpr
  | Subscript : PyExpr → PyExpr → PyExpr
  | Constant : Json → PyExpr
  | Tuple : List PyExpr → PyExpr
  | Call : PyExpr → List PyExpr → PyExpr
deriving Repr

/-- The Python statements the synthesizer builds.  `AnnAssign name ann v`
is `name: ann` (with `= Constant(v)` when `v` is present); `Assign t v` is
an enum member binding `Name(id=t) = Constant(v)` (the target id is kept as
the raw `Json` value the code passes to `ast.Name`); `ExprStmt` is
`ast.Expr`. -/
inductive PyStmt where
  | AnnAssign : String → PyExpr → Option Json → PyStmt
  | Assign : Json → Json → PyStmt
  | ClassDef : String → List PyExpr → List PyStmt → PyStmt
  | ImportFrom : String → List String → PyStmt
  | Import : List String → PyStmt
  | ExprStmt : PyExpr → PyStmt
deriving Repr

/-- Outcome of the Python case `{"$ref": ref} if ref.startswith("#/")`:
`some (some r)` when the pattern matches and the guard holds, `some none`
when the pattern matches but the guard raises (`$ref` bound to a
non-string), `none` when the case falls through (no `$ref` key, or a string
pointer that does not start with `#/`). -/
def refCase (config : Json) : Option (Option String) :=
  match config.lookup "$ref" with
  | some (.str r) => if pyStartsWith r "#/" then some (some r) else none
  | some _ => some none
  | none => none

/-- A list comprehension collecting `Except` results: left-to-right, the
first exception aborting the rest. -/
def pyMapList (f : Json → Except String PyExpr) :
    List Json → Except String (List PyExpr)
  | [] => .ok []
  | x :: xs =>
    match f x with
    | .ok t =>
      match pyMapList f xs with
      | .ok ts => .ok (t :: ts)
      | .error e => .error e
    | .error e => .error e

/-- Fuel-bounded form of `get_type_annotation`; the wrapper below
instantiates the bound with `jsize config`, which `gta_fuel_mono` shows is
never exhausted. -/
def gta_fuel : Nat → Json → Json → Except String PyExpr
  | 0, _, _ => .error "recursion bound exhausted"
  | fuel + 1, config, spec =>
    if typeIs config "integer" then .ok (.Name "int")
    else if typeIs config "string" && keyIs config "format" "date-time" then
      .ok (.Name "datetime")
    else if typeIs config "string" &&
        (keyIs config "format" "uuid" || keyIs config "format" "uuid4") then
      .ok (.Name "UUID")
    else if typeIs config "string" then .ok (.Name "str")
    else
      match refCase config with
      | some (some ref) =>
        match ((pySplitSlash ref).drop 1).foldlM jsonGetItem spec with
        | .ok obj =>
          match jsonGetItem obj "title" with
          | .ok title => .ok (.Constant title)
          | .error e => .error e
        | .error e => .error e
      | some none => .error "AttributeError: startswith"
      | none =>
        match (if typeIs config "array" then config.lookup "items" else none) with
        | some arr_conf =>
          match gta_fuel fuel arr_conf spec with
          | .ok t => .ok (.Subscript (.Name "list") t)
          | .error e => .error e
        | none =>
          match config.lookup "anyOf" with
          | some (.arr items) =>
            match pyMapList (fun x => gta_fuel fuel x spec) items with
            | .ok ts =>
              .ok (.Subscript (.Attribute (.Name "typing") "Union") (.Tuple ts))
            | .error e => .error e
          | some _ => .error "TypeError: anyOf value is not iterable"
          | none =>
            match config.lookup "allOf" with
            | some (.arr [item]) => gta_fuel fuel item spec
            | _ =>
              if typeIs config "boolean" then .ok (.Name "bool")
              else .ok (.Attribute (.Name "typing") "Any")

/-- `get_type_annotation(config, spec)`: the recursive schema-to-type
resolver, with the source's case order: `integer`; `string`+`date-time`;
`string`+`uuid`/`uuid4`; `string`; `$ref` starting with `#/` (split the
pointer on `/`, drop the leading `#`, fold `operator.getitem` over the
document, take the target's `title`); `array`+`items`; `anyOf`;
single-element `allOf`; `boolean`; anything else is `typing.Any`.
Exceptions (failed traversal, missing `title`) are `Except.error`.  The
recursive equation is `get_type_annotation_eq`. -/
def get_type_annotation (config : Json) (spec : Json) : Except String PyExpr :=
  gta_fuel (jsize config) config spec
/-- Python `name not in required` for a sequence `required`: membership by
`==`, under which a string equals only the same string.  Non-sequence
`required` values (which would need Python's `str`/`dict` containment or
raise `TypeError`) do not occur in the claims and are modelled as the
raised error. -/
def pyNotIn (name : String) (required : Json) : Except String Bool :=
  match required with
  | .arr l => .ok (!(l.any fun j => match j with | .str s => s = name | _ => false))
  | _ => .error "TypeError: argument is not a container"

/-- Python truthiness of a value (`if ... and required:`). -/
def jsonTruthy : Json → Bool
  | .str s => !s.isEmpty
  | .int n => n != 0
  | .bool b => b
  | .null => false
  | .arr l => !l.isEmpty
  | .obj kvs => !kvs.isEmpty

/-- `get_field(name, config, spec, required)`: wrap the resolved annotation
in `typing.Optional` when `name not in required and required`, then emit
`name: annotation` with the schema's literal `default` carried over when
the config has one.  (The source resolves the annotation separately in the
two branches of the `if`; resolution is pure, so the single call here is
observably the same.) -/
def get_field (name : String) (config : Json) (spec : Json) (required : Json) :
    Except String PyStmt :=
  match pyNotIn name required with
  | .error e => .error e
  | .ok notIn =>
    match get_type_annotation config spec with
    | .error e => .error e
    | .ok t =>
      let annotation :=
        if notIn && jsonTruthy required then
          PyExpr.Subscript (.Attribute (.Name "typing") "Optional") t
        else t
      match config.lookup "default" with
      | some value => .ok (.AnnAssign name annotation (some value))
      | none => .ok (.AnnAssign name annotation none)

/-- `get_enum_bases(enum_type)`: base classes of the synthesized enum.  The
argument is the raw `type` value of the schema (`Json.null` models the
Python `None` passed for a type-less enum schema). -/
def get_enum_bases (enum_type : Json) : List PyExpr :=
  match enum_type with
  | .str "string" => [.Name "str", .Name "Enum"]
  | .str "integer" => [.Name "int", .Name "Enum"]
  | _ => [.Name "Enum"]

/-- `get_enum_body(enum_type, members)`: for an integer enum, member `i`
is bound as `chr(97 + i) = Constant(m_i)`; otherwise each member `m` is
bound as `m = Constant(m)` with the raw value used as the identifier.
`members` values that are not sequences, which would raise on iteration,
are modelled as the raised error. -/
def get_enum_body (enum_type : Json) (members : Json) : Except String (List PyStmt) :=
  match enum_type with
  | .str "integer" =>
    match members with
    | .arr l => .ok (l.enum.map fun im => .Assign (.str (Char.ofNat (97 + im.1)).toString) im.2)
    | _ => .error "TypeError: members are not iterable"
  | _ =>
    match members with
    | .arr l => .ok (l.map fun m => .Assign m m)
    | _ => .error "TypeError: members are not iterable"

/-- The fixed import preamble built at the top of `openapi_to_pydantic`. -/
def module_imports : List PyStmt :=
  [ .ImportFrom "pydantic" ["BaseModel"],
    .ImportFrom "enum" ["Enum"],
    .ImportFrom "datetime" ["datetime"],
    .ImportFrom "uuid" ["UUID"],
    .Import ["typing"] ]

/-- The two enum arms of the schema match in `openapi_to_pydantic`: they
are reached when the object arm above them fell through.  `{"type": T,
"enum": members}` synthesizes an enum from `T`; `{"enum": members}` with no
`type` key synthesizes one from `None`; any other shape yields no model. -/
def process_enum_schema (name : String) (schema : Json) :
    Except String (Option PyStmt) :=
  match schema.lookup "type", schema.lookup "enum" with
  | some enum_type, some members =>
    match get_enum_body enum_type members with
    | .ok body => .ok (some (.ClassDef name (get_enum_bases enum_type) body))
    | .error e => .error e
  | none, some members =>
    match get_enum_body .null members with
    | .ok body => .ok (some (.ClassDef name (get_enum_bases .null) body))
    | .error e => .error e
  | _, none => .ok none

/-- `list(starmap(partial(get_field, required=required, spec=spec),
properties.items()))`: one field statement per property in declaration
order, the first exception aborting the rest. -/
def get_fields (spec : Json) (required : Json) :
    List (String × Json) → Except String (List PyStmt)
  | [] => .ok []
  | nc :: rest =>
    match get_field nc.1 nc.2 spec required with
    | .ok f =>
      match get_fields spec required rest with
      | .ok fs => .ok (f :: fs)
      | .error e => .error e
    | .error e => .error e

/-- One iteration of the loop over `spec["components"]["schemas"].items()`:
`required = schema.get("required", [])`; a `{"type": "object",
"properties": ...}` schema yields a `BaseModel` class with one field per
property in order (first component) and, when any property's raw config
`has_ref`, the `name.update_forward_refs()` rebuild statement (second
component); otherwise the enum arms run.  A `properties` value that is not
a mapping, whose `.items()` would raise, is modelled as the raised
error. -/
def process_schema (spec : Json) (name : String) (schema : Json) :
    Except String (Option PyStmt × Option PyStmt) :=
  let required := (schema.lookup "required").getD (Json.arr [])
  if typeIs schema "object" && (schema.lookup "properties").isSome then
    match schema.lookup "properties" with
    | some (.obj props) =>
      match get_fields spec required props with
      | .ok fields =>
        .ok (some (.ClassDef name [.Name "BaseModel"] fields),
             if props.any (fun nc => has_ref nc.2) then
               some (.ExprStmt (.Call
                 (.Attribute (.Name name) "update_forward_refs") []))
             else none)
      | .error e => .error e
    | _ => .error "AttributeError: items"
  else
    match process_enum_schema name schema with
    | .ok m => .ok (m, none)
    | .error e => .error e

/-- The body of the `for name, schema in spec["components"]["schemas"]
.items()` loop: the `models` list accumulates one class per matching
schema in document order, `forward_refs` one rebuild call per flagged
class in the same order; the first exception aborts the loop. -/
def process_schemas (spec : Json) :
    List (String × Json) → Except String (List PyStmt × List PyStmt)
  | [] => .ok ([], [])
  | ns :: rest =>
    match process_schema spec ns.1 ns.2 with
    | .ok (m, fr) =>
      match process_schemas spec rest with
      | .ok (models, frs) => .ok (m.toList ++ models, fr.toList ++ frs)
      | .error e => .error e
    | .error e => .error e

/-- `openapi_to_pydantic(spec)`: look up `spec["components"]["schemas"]`,
process each `(name, schema)` entry in document order, and return the
module body: the import preamble, then the model class definitions in
declaration order, then the `update_forward_refs()` calls of the flagged
classes in the same relative order. -/
def openapi_to_pydantic (spec : Json) : Except String (List PyStmt) :=
  match jsonGetItem spec "components" with
  | .error e => .error e
  | .ok components =>
    match jsonGetItem components "schemas" with
    | .error e => .error e
    | .ok schemas =>
      match schemas with
      | .obj kvs =>
        match process_schemas spec kvs with
        | .ok (models, forward_refs) =>
          .ok (module_imports ++ models ++ forward_refs)
        | .error e => .error e
      | _ => .error "AttributeError: items"


/-! ## Concrete documents used by the witnesses and counterexamples -/

/-- A `$ref` node whose pointer names a missing schema. -/
def cfgBadRef : Json := .obj [("$ref", .str "#/components/schemas/Missing")]

/-- An object schema with one property holding the dangling reference. -/
def schemaBadM : Json :=
  .obj [("type", .str "object"), ("properties", .obj [("f", cfgBadRef)])]

/-- A document whose only schema contains a dangling `$ref`. -/
def docBad : Json :=
  .obj [("components", .obj [("schemas", .obj [("M", schemaBadM)])])]

/-- The array-of-references node of the C5 example. -/
def arrFooNode : Json :=
  .obj [("type", .str "array"),
        ("items", .obj [("$ref", .str "#/components/schemas/Foo")])]

/-- A schema entry named `Foo` whose `title` is the different string
`Bar`. -/
def fooTitledBar : Json := .obj [("title", .str "Bar")]

/-- A document whose `Foo` entry is titled `Bar`. -/
def docFooBar : Json :=
  .obj [("components", .obj [("schemas", .obj [("Foo", fooTitledBar)])])]

/-- A schema entry named `Foo` whose `title` is also `Foo`. -/
def fooTitledFoo : Json := .obj [("title", .str "Foo")]

/-- A document whose `Foo` entry is titled `Foo`. -/
def docFooFoo : Json :=
  .obj [("components", .obj [("schemas", .obj [("Foo", fooTitledFoo)])])]

/-- The reachability relation of C3 read as written, disjunctively: a
`$ref` occurrence is reachable directly, through the `items` of an
array-typed node, or through any `anyOf` branch. -/
inductive RefReachable : Json → Prop where
  | direct : ∀ kvs v, lookupKV kvs "$ref" = some v → RefReachable (.obj kvs)
  | viaItems : ∀ kvs items, lookupKV kvs "type" = some (.str "array") →
      lookupKV kvs "items" = some items → RefReachable items →
      RefReachable (.obj kvs)
  | viaAnyOf : ∀ kvs l b, lookupKV kvs "anyOf" = some (.arr l) → b ∈ l →
      RefReachable b → RefReachable (.obj kvs)

/-- The reachability the scan actually implements: as `RefReachable`, but
with the source's first-match-wins precedence — `items` are followed only
on a node with no direct `$ref` that matches the array pattern, and
`anyOf` branches only on a node with no direct `$ref` that does not match
the array pattern. -/
inductive ScanRefReachable : Json → Prop where
  | direct : ∀ kvs v, lookupKV kvs "$ref" = some v → ScanRefReachable (.obj kvs)
  | viaItems : ∀ kvs items, lookupKV kvs "$ref" = none →
      (if typeIs (.obj kvs) "array" then lookupKV kvs "items" else none) =
        some items →
      ScanRefReachable items → ScanRefReachable (.obj kvs)
  | viaAnyOf : ∀ kvs l b, lookupKV kvs "$ref" = none →
      (if typeIs (.obj kvs) "array" then lookupKV kvs "items" else none) = none →
      lookupKV kvs "anyOf" = some (.arr l) → b ∈ l →
      ScanRefReachable b → ScanRefReachable (.obj kvs)

/-- An array-typed config whose only `$ref` sits in a sibling `anyOf`
key: the scan follows the `items` arm and never looks at `anyOf`. -/
def cfgShadow : Json :=
  .obj [("type", .str "array"),
        ("items", .obj [("type", .str "integer")]),
        ("anyOf", .arr [.obj [("$ref", .str "#/components/schemas/A")]])]

/-- An object schema whose single property is `cfgShadow`. -/
def schemaShadow : Json :=
  .obj [("type", .str "object"), ("properties", .obj [("p", cfgShadow)])]

/-- A document containing only the shadowed-reference schema. -/
def docShadow : Json :=
  .obj [("components", .obj [("schemas", .obj [("S", schemaShadow)])])]

/-- A property config holding a direct internal reference to `B`. -/
def cfgRefB : Json := .obj [("$ref", .str "#/components/schemas/B")]

/-- An object schema whose property `b` directly references `B`. -/
def schemaRefA : Json :=
  .obj [("type", .str "object"), ("properties", .obj [("b", cfgRefB)])]

/-- A titled object schema `B`, referenced by the other schemas. -/
def schemaB : Json :=
  .obj [("title", .str "B"), ("type", .str "object"),
        ("properties", .obj [("x", .obj [("type", .str "integer")])])]

/-- A document with a referencing schema `A` declared before its target
`B`. -/
def docRefAB : Json :=
  .obj [("components", .obj [("schemas", .obj [
    ("A", schemaRefA), ("B", schemaB)])])]

/-- A property config whose only `$ref` sits inside a single-element
`allOf` wrapper. -/
def cfgAllOfRef : Json :=
  .obj [("allOf", .arr [.obj [("$ref", .str "#/components/schemas/B")]])]

/-- An object schema whose property references `B` only through `allOf`. -/
def schemaAllOfA : Json :=
  .obj [("type", .str "object"), ("properties", .obj [("b", cfgAllOfRef)])]

/-- A document whose `A` references `B` only through an `allOf` wrapper. -/
def docAllOfAB : Json :=
  .obj [("components", .obj [("schemas", .obj [
    ("A", schemaAllOfA), ("B", schemaB)])])]


/-! ## Recursion equations for `has_ref` and `get_type_annotation` -/

theorem list_any_congr {α : Type} {f g : α → Bool} {l : List α}
    (h : ∀ x ∈ l, f x = g x) : l.any f = l.any g := by
  induction l with
  | nil => rfl
  | cons x xs ih =>
    simp only [List.any_cons, h x (by simp), ih fun y hy => h y (by simp [hy])]

theorem pyMapList_congr {f g : Json → Except String PyExpr} {l : List Json}
    (h : ∀ x ∈ l, f x = g x) : pyMapList f l = pyMapList g l := by
  induction l with
  | nil => rfl
  | cons x xs ih =>
    simp only [pyMapList, h x (by simp), ih fun y hy => h y (by simp [hy])]

theorem has_ref_fuel_mono : ∀ {f1 : Nat} (f2 : Nat) {config : Json},
    jsize config ≤ f1 → jsize config ≤ f2 →
    has_ref_fuel f1 config = has_ref_fuel f2 config := by
  intro f1
  induction f1 using Nat.strong_induction_on with
  | _ f1 ih =>
    intro f2 config h1 h2
    have hp := jsize_pos config
    obtain ⟨a, rfl⟩ : ∃ a, f1 = a + 1 := ⟨f1 - 1, by omega⟩
    obtain ⟨b, rfl⟩ : ∃ b, f2 = b + 1 := ⟨f2 - 1, by omega⟩
    simp only [has_ref_fuel]
    split
    · rfl
    · split
      · rename_i items heq
        have hlt : jsize items < jsize config := by
          split at heq
          · exact lookup_jsize heq
          · cases heq
        exact ih a (by omega) b (by omega) (by omega)
      · split
        · rename_i l heq2
          have hlt : jsize (Json.arr l) < jsize config := lookup_jsize heq2
          refine list_any_congr fun x hx => ?_
          have hx2 : jsize x < jsize (Json.arr l) := jsize_mem_arr hx
          exact ih a (by omega) b (by omega) (by omega)
        · rfl

/-- The direct recursive equation of the source's `has_ref`. -/
theorem has_ref_eq (config : Json) :
    has_ref config =
      (if (config.lookup "$ref").isSome then true
       else
         match (if typeIs config "array" then config.lookup "items" else none) with
         | some items => has_ref items
         | none =>
           match config.lookup "anyOf" with
           | some (.arr l) => l.any has_ref
           | _ => false) := by
  show has_ref_fuel (jsize config) config = _
  have hp := jsize_pos config
  obtain ⟨a, ha⟩ : ∃ a, jsize config = a + 1 := ⟨jsize config - 1, by omega⟩
  rw [ha]
  simp only [has_ref_fuel]
  split
  · rfl
  · split
    · rename_i items heq
      have hlt : jsize items < jsize config := by
        split at heq
        · exact lookup_jsize heq
        · cases heq
      exact has_ref_fuel_mono _ (by omega) (le_refl _)
    · split
      · rename_i l heq2
        have hlt : jsize (Json.arr l) < jsize config := lookup_jsize heq2
        refine list_any_congr fun x hx => ?_
        have hx2 : jsize x < jsize (Json.arr l) := jsize_mem_arr hx
        exact has_ref_fuel_mono _ (by omega) (le_refl _)
      · rfl

theorem gta_fuel_mono : ∀ {f1 : Nat} (f2 : Nat) {config spec : Json},
    jsize config ≤ f1 → jsize config ≤ f2 →
    gta_fuel f1 config spec = gta_fuel f2 config spec := by
  intro f1
  induction f1 using Nat.strong_induction_on with
  | _ f1 ih =>
    intro f2 config spec h1 h2
    have hp := jsize_pos config
    obtain ⟨a, rfl⟩ : ∃ a, f1 = a + 1 := ⟨f1 - 1, by omega⟩
    obtain ⟨b, rfl⟩ : ∃ b, f2 = b + 1 := ⟨f2 - 1, by omega⟩
    simp only [gta_fuel]
    split
    · rfl
    · split
      · rfl
      · split
        · rfl
        · split
          · rfl
          · split
            · rfl
            · rfl
            · split
              · rename_i arr_conf heq
                have hlt : jsize arr_conf < jsize config := by
                  split at heq
                  · exact lookup_jsize heq
                  · cases heq
                rw [ih a (by omega) b (by omega) (by omega)]
              · split
                · rename_i items heq2
                  have hlt : jsize (Json.arr items) < jsize config :=
                    lookup_jsize heq2
                  have hmap : pyMapList (fun x => gta_fuel a x spec) items =
                      pyMapList (fun x => gta_fuel b x spec) items :=
                    pyMapList_congr fun x hx => by
                      have hx2 : jsize x < jsize (Json.arr items) :=
                        jsize_mem_arr hx
                      exact ih a (by omega) b (by omega) (by omega)
                  rw [hmap]
                · rfl
                · split
                  · rename_i item heq3
                    have hlt : jsize item < jsize config := by
                      have h4 := lookup_jsize heq3
                      have h5 : jsize item < jsize (Json.arr [item]) := by
                        simp only [jsize, jsizeL]; omega
                      omega
                    exact ih a (by omega) b (by omega) (by omega)
                  · rfl

/-- The direct recursive equation of the source's `get_type_annotation`. -/
theorem get_type_annotation_eq (config spec : Json) :
    get_type_annotation config spec =
      (if typeIs config "integer" then .ok (.Name "int")
       else if typeIs config "string" && keyIs config "format" "date-time" then
         .ok (.Name "datetime")
       else if typeIs config "string" &&
           (keyIs config "format" "uuid" || keyIs config "format" "uuid4") then
         .ok (.Name "UUID")
       else if typeIs config "string" then .ok (.Name "str")
       else
         match refCase config with
         | some (some ref) =>
           match ((pySplitSlash ref).drop 1).foldlM jsonGetItem spec with
           | .ok obj =>
             match jsonGetItem obj "title" with
             | .ok title => .ok (.Constant title)
             | .error e => .error e
           | .error e => .error e
         | some none => .error "AttributeError: startswith"
         | none =>
           match (if typeIs config "array" then config.lookup "items" else none) with
           | some arr_conf =>
             match get_type_annotation arr_conf spec with
             | .ok t => .ok (.Subscript (.Name "list") t)
             | .error e => .error e
           | none =>
             match config.lookup "anyOf" with
             | some (.arr items) =>
               match pyMapList (fun x => get_type_annotation x spec) items with
               | .ok ts =>
                 .ok (.Subscript (.Attribute (.Name "typing") "Union") (.Tuple ts))
               | .error e => .error e
             | some _ => .error "TypeError: anyOf value is not iterable"
             | none =>
               match config.lookup "allOf" with
               | some (.arr [item]) => get_type_annotation item spec
               | _ =>
                 if typeIs config "boolean" then .ok (.Name "bool")
                 else .ok (.Attribute (.Name "typing") "Any")) := by
  show gta_fuel (jsize config) config spec = _
  have hp := jsize_pos config
  obtain ⟨a, ha⟩ : ∃ a, jsize config = a + 1 := ⟨jsize config - 1, by omega⟩
  rw [ha]
  simp only [gta_fuel]
  split
  · rfl
  · split
    · rfl
    · split
      · rfl
      · split
        · rfl
        · split
          · rfl
          · rfl
          · split
            · rename_i arr_conf heq
              have hlt : jsize arr_conf < jsize config := by
                split at heq
                · exact lookup_jsize heq
                · cases heq
              rw [show gta_fuel a arr_conf spec = get_type_annotation arr_conf spec
                from gta_fuel_mono _ (by omega) (le_refl _)]
            · split
              · rename_i items heq2
                have hlt : jsize (Json.arr items) < jsize config :=
                  lookup_jsize heq2
                have hmap : pyMapList (fun x => gta_fuel a x spec) items =
                    pyMapList (fun x => get_type_annotation x spec) items :=
                  pyMapList_congr fun x hx => by
                    have hx2 : jsize x < jsize (Json.arr items) :=
                      jsize_mem_arr hx
                    exact gta_fuel_mono _ (by omega) (le_refl _)
                rw [hmap]
              · rfl
              · split
                · rename_i item heq3
                  have hlt : jsize item < jsize config := by
                    have h4 := lookup_jsize heq3
                    have h5 : jsize item < jsize (Json.arr [item]) := by
                      simp only [jsize, jsizeL]; omega
                    omega
                  exact gta_fuel_mono _ (by omega) (le_refl _)
                · rfl

/-! ## General lemmas -/

theorem pyMapList_of_forall₂ {spec : Json} {l : List Json} {ts : List PyExpr}
    (h : List.Forall₂ (fun n t => get_type_annotation n spec = .ok t) l ts) :
    pyMapList (fun n => get_type_annotation n spec) l = .ok ts := by
  induction h with
  | nil => simp [pyMapList]
  | cons h1 _ ih => simp [pyMapList, h1, ih]

theorem forall₂_reverse {α β : Type} {R : α → β → Prop} {l : List α} {ts : List β}
    (h : List.Forall₂ R l ts) : List.Forall₂ R l.reverse ts.reverse :=
  List.forall₂_reverse_iff.mpr h

/-! ## C1: Optional wrapping from the required set -/

/-- C1: a field resolved with required set `R` (a sequence of names) gets
its annotation wrapped in `typing.Optional` exactly when `R` is non-empty
and the field's name is absent from `R`; with an empty `R` the annotation
is the unwrapped resolved type.  The schema's literal `default` is carried
over either way. -/
theorem c1_optional_wrapping (name : String) (config spec : Json)
    (l : List Json) (t : PyExpr)
    (h : get_type_annotation config spec = .ok t) :
    get_field name config spec (.arr l) =
      .ok (.AnnAssign name
        (if (!(l.any fun j => match j with | .str s => s = name | _ => false))
            && !l.isEmpty then
          .Subscript (.Attribute (.Name "typing") "Optional") t
         else t)
        (config.lookup "default")) := by
  simp only [get_field, pyNotIn, jsonTruthy, h]
  cases hd : config.lookup "default" <;> simp [hd]

theorem c1_optional_wrapping_witness :
    get_field "b" (.obj [("type", .str "integer")]) .null (.arr [.str "a"]) =
      .ok (.AnnAssign "b"
        (.Subscript (.Attribute (.Name "typing") "Optional") (.Name "int")) none) := by
  have h : get_type_annotation (.obj [("type", .str "integer")]) .null =
      .ok (.Name "int") := by
    simp only [ get_type_annotation, jsize, jsizeKV, jsizeL]
    rfl
  have h2 := c1_optional_wrapping "b" (.obj [("type", .str "integer")]) .null
    [.str "a"] (.Name "int") h
  simpa [Json.lookup, lookupKV] using h2

/-! ## C6: allOf flattening -/

/-- C6: a single-element `allOf` node resolves to the resolution of its
sole element; an `allOf` node whose sequence has two or more elements
matches no rule and resolves to `typing.Any` without raising. -/
theorem c6_allof_flattening (n n1 n2 spec : Json) (rest : List Json) :
    get_type_annotation (.obj [("allOf", .arr [n])]) spec =
      get_type_annotation n spec ∧
    get_type_annotation (.obj [("allOf", .arr (n1 :: n2 :: rest))]) spec =
      .ok (.Attribute (.Name "typing") "Any") := by
  constructor
  · conv_lhs => rw [ get_type_annotation_eq]
    simp [typeIs, keyIs, refCase, Json.lookup, lookupKV]
  · conv_lhs => rw [ get_type_annotation_eq]
    simp [typeIs, keyIs, refCase, Json.lookup, lookupKV]

/-! ## C7: anyOf union, order preserved -/

/-- C7: an `anyOf` node resolves to `typing.Union` subscripted with the
tuple of the branch resolutions, in declared order and without
deduplication; resolving the reversed branch sequence yields the union of
the same resolutions in reversed order. -/
theorem c7_anyof_order (spec : Json) (l : List Json) (ts : List PyExpr)
    (h : List.Forall₂ (fun n t => get_type_annotation n spec = .ok t) l ts) :
    get_type_annotation (.obj [("anyOf", .arr l)]) spec =
      .ok (.Subscript (.Attribute (.Name "typing") "Union") (.Tuple ts)) ∧
    get_type_annotation (.obj [("anyOf", .arr l.reverse)]) spec =
      .ok (.Subscript (.Attribute (.Name "typing") "Union") (.Tuple ts.reverse)) := by
  constructor
  · conv_lhs => rw [ get_type_annotation_eq]
    simp [typeIs, keyIs, refCase, Json.lookup, lookupKV,
      pyMapList_of_forall₂ h]
  · conv_lhs => rw [ get_type_annotation_eq]
    simp [typeIs, keyIs, refCase, Json.lookup, lookupKV,
      pyMapList_of_forall₂ (forall₂_reverse h)]

theorem c7_anyof_order_witness :
    get_type_annotation
        (.obj [("anyOf", .arr [.obj [("type", .str "integer")],
                               .obj [("type", .str "string")]])]) .null =
      .ok (.Subscript (.Attribute (.Name "typing") "Union")
        (.Tuple [.Name "int", .Name "str"])) ∧
    get_type_annotation
        (.obj [("anyOf", .arr [.obj [("type", .str "string")],
                               .obj [("type", .str "integer")]])]) .null =
      .ok (.Subscript (.Attribute (.Name "typing") "Union")
        (.Tuple [.Name "str", .Name "int"])) := by
  have hint : get_type_annotation (.obj [("type", .str "integer")]) .null =
      .ok (.Name "int") := by
    simp only [ get_type_annotation, jsize, jsizeKV, jsizeL]
    rfl
  have hstr : get_type_annotation (.obj [("type", .str "string")]) .null =
      .ok (.Name "str") := by
    simp only [ get_type_annotation, jsize, jsizeKV, jsizeL]
    rfl
  have h := c7_anyof_order .null
    [.obj [("type", .str "integer")], .obj [("type", .str "string")]]
    [.Name "int", .Name "str"]
    (List.Forall₂.cons hint (List.Forall₂.cons hstr List.Forall₂.nil))
  exact ⟨h.1, by simpa using h.2⟩

/-! ## C10: external references fall through to Any -/

/-- C10: a `{"$ref": pointer}` node whose pointer does not start with
`#/` is not resolved and does not fail: the `$ref` case's guard rejects
it and it falls through the remaining rules to `typing.Any`. -/
theorem c10_external_ref_any (ref : String) (spec : Json)
    (h : pyStartsWith ref "#/" = false) :
    get_type_annotation (.obj [("$ref", .str ref)]) spec =
      .ok (.Attribute (.Name "typing") "Any") := by
  conv_lhs => rw [ get_type_annotation_eq]
  simp [typeIs, keyIs, refCase, Json.lookup, lookupKV, h]

theorem c10_external_ref_any_witness :
    get_type_annotation (.obj [("$ref", .str "other.yaml#/definitions/Foo")]) .null =
      .ok (.Attribute (.Name "typing") "Any") :=
  c10_external_ref_any "other.yaml#/definitions/Foo" .null (by decide)

/-! ## Error propagation lemmas -/

theorem get_field_error_of_gta_error {config spec : Json} {e : String}
    (he : get_type_annotation config spec = .error e)
    (name : String) (required : Json) :
    ∃ e2, get_field name config spec required = .error e2 := by
  simp only [get_field]
  cases hn : pyNotIn name required with
  | error e3 => exact ⟨e3, rfl⟩
  | ok notIn => simp [he]

theorem get_fields_error_of_mem {spec required : Json} {props : List (String × Json)}
    {fname : String} {config : Json} {e : String}
    (hmem : (fname, config) ∈ props)
    (he : get_field fname config spec required = .error e) :
    ∃ e2, get_fields spec required props = .error e2 := by
  induction props with
  | nil => simp at hmem
  | cons p rest ih =>
    rcases List.mem_cons.mp hmem with h | h
    · subst h
      simp [get_fields, he]
    · obtain ⟨e2, he2⟩ := ih h
      simp only [get_fields]
      cases hp : get_field p.1 p.2 spec required with
      | error e3 => exact ⟨e3, rfl⟩
      | ok f => simp [he2]

theorem process_schema_error_of_fields (name : String) {spec schema : Json}
    {props : List (String × Json)} {e : String}
    (hty : typeIs schema "object" = true)
    (hp : schema.lookup "properties" = some (.obj props))
    (hf : get_fields spec ((schema.lookup "required").getD (.arr [])) props = .error e) :
    process_schema spec name schema = .error e := by
  simp [process_schema, hty, hp, hf]

theorem process_schemas_error_of_mem {spec : Json} {kvs : List (String × Json)}
    {sname : String} {schema : Json} {e : String}
    (hmem : (sname, schema) ∈ kvs)
    (he : process_schema spec sname schema = .error e) :
    ∃ e2, process_schemas spec kvs = .error e2 := by
  induction kvs with
  | nil => simp at hmem
  | cons p rest ih =>
    rcases List.mem_cons.mp hmem with h | h
    · subst h
      simp [process_schemas, he]
    · obtain ⟨e2, he2⟩ := ih h
      simp only [process_schemas]
      cases hp : process_schema spec p.1 p.2 with
      | error e3 => exact ⟨e3, rfl⟩
      | ok r => simp [he2, hp]

theorem openapi_error_of_process {spec comps : Json} {kvs : List (String × Json)} {e : String}
    (h1 : jsonGetItem spec "components" = .ok comps)
    (h2 : jsonGetItem comps "schemas" = .ok (.obj kvs))
    (h3 : process_schemas spec kvs = .error e) :
    openapi_to_pydantic spec = .error e := by
  simp [openapi_to_pydantic, h1, h2, h3]

/-! ## C2: internal reference resolution and fatal failure -/

/-- C2: a `{"$ref": pointer}` node (with an internal pointer and no `type`
key) is resolved by splitting the pointer on `/`, dropping the leading `#`
segment, folding item lookup over the document, and taking the target's
`title` as the named reference; when the traversal or the `title` lookup
fails, the resolver returns that error, `get_field` returns the same
error, and `openapi_to_pydantic` on a document reaching that node returns
an error — no output is produced for the run. -/
theorem c2_ref_resolution (config spec : Json) (ref : String)
    (hty : config.lookup "type" = none)
    (href : config.lookup "$ref" = some (.str ref))
    (hs : pyStartsWith ref "#/" = true) :
    ( get_type_annotation config spec =
      match ((pySplitSlash ref).drop 1).foldlM jsonGetItem spec with
      | .ok obj =>
        (match jsonGetItem obj "title" with
         | .ok title => .ok (.Constant title)
         | .error e => .error e)
      | .error e => .error e) ∧
    (∀ e : String, get_type_annotation config spec = .error e →
      ∀ name : String, ∀ l : List Json,
        get_field name config spec (.arr l) = .error e) ∧
    (∀ e : String, get_type_annotation config spec = .error e →
      ∀ comps : Json, ∀ kvs props : List (String × Json),
        ∀ sname fname : String, ∀ schema : Json,
        jsonGetItem spec "components" = .ok comps →
        jsonGetItem comps "schemas" = .ok (.obj kvs) →
        (sname, schema) ∈ kvs →
        typeIs schema "object" = true →
        schema.lookup "properties" = some (.obj props) →
        (fname, config) ∈ props →
        ∃ e2, openapi_to_pydantic spec = .error e2) := by
  refine ⟨?_, ?_, ?_⟩
  · conv_lhs => rw [ get_type_annotation_eq]
    simp [typeIs, keyIs, refCase, hty, href, hs]
  · intro e he name l
    simp only [get_field, pyNotIn, he]
  · intro e he comps kvs props sname fname schema h1 h2 hmem hsty hsp hfmem
    obtain ⟨e2, hgf⟩ := get_field_error_of_gta_error he fname
      ((schema.lookup "required").getD (.arr []))
    obtain ⟨e3, hgfs⟩ := get_fields_error_of_mem hfmem hgf
    have hps := process_schema_error_of_fields sname hsty hsp hgfs
    obtain ⟨e4, hpss⟩ := process_schemas_error_of_mem hmem hps
    exact ⟨e4, openapi_error_of_process h1 h2 hpss⟩

theorem c2_ref_resolution_witness :
    get_type_annotation cfgBadRef docBad = .error "KeyError: Missing" ∧
    ∃ e2, openapi_to_pydantic docBad = .error e2 := by
  have H := c2_ref_resolution cfgBadRef docBad "#/components/schemas/Missing"
    rfl rfl (by decide)
  have hgta : get_type_annotation cfgBadRef docBad = .error "KeyError: Missing" :=
    H.1.trans rfl
  refine ⟨hgta, ?_⟩
  exact H.2.2 "KeyError: Missing" hgta (.obj [("schemas", .obj [("M", schemaBadM)])])
    [("M", schemaBadM)] [("f", cfgBadRef)] "M" "f" schemaBadM
    rfl rfl (by simp) rfl rfl (by simp)

/-! ## C8: integer enum member synthesis -/

/-- C8: an integer enum body has exactly one member per enum value, in
declared order; the member at index `i` binds the identifier `chr(97+i)`
(the `i`-th lowercase letter) to the `i`-th literal value. -/
theorem c8_integer_enum (ms : List Json) (body : List PyStmt)
    (h : get_enum_body (.str "integer") (.arr ms) = .ok body) :
    body.length = ms.length ∧
    ∀ i : Nat, ∀ m : Json, ms[i]? = some m →
      body[i]? = some (.Assign (.str (Char.ofNat (97 + i)).toString) m) := by
  simp only [get_enum_body, Except.ok.injEq] at h
  subst h
  constructor
  · simp [List.enum_length]
  · intro i m hm
    simp [List.getElem?_map, List.getElem?_enum, hm]

theorem c8_integer_enum_witness :
    [PyStmt.Assign (.str "a") (.int 10), PyStmt.Assign (.str "b") (.int 20),
      PyStmt.Assign (.str "c") (.int 30)].length =
      [Json.int 10, Json.int 20, Json.int 30].length ∧
    ∀ i : Nat, ∀ m : Json, [Json.int 10, Json.int 20, Json.int 30][i]? = some m →
      [PyStmt.Assign (.str "a") (.int 10), PyStmt.Assign (.str "b") (.int 20),
        PyStmt.Assign (.str "c") (.int 30)][i]? =
        some (.Assign (.str (Char.ofNat (97 + i)).toString) m) :=
  c8_integer_enum [.int 10, .int 20, .int 30]
    [.Assign (.str "a") (.int 10), .Assign (.str "b") (.int 20),
      .Assign (.str "c") (.int 30)] rfl

/-! ## C5: array of named references -/

/-- C5 as written is false: the named reference produced for
`{"$ref": "#/components/schemas/Foo"}` carries the target node's `title`,
not the schema key `Foo`.  Here the entry named `Foo` is titled `Bar` and
resolution yields `list[Constant "Bar"]`, not `list[Constant "Foo"]`. -/
theorem c5_counterexample :
    get_type_annotation arrFooNode docFooBar =
      .ok (.Subscript (.Name "list") (.Constant (.str "Bar"))) ∧
    get_type_annotation arrFooNode docFooBar ≠
      .ok (.Subscript (.Name "list") (.Constant (.str "Foo"))) := by
  have hout : get_type_annotation arrFooNode docFooBar =
      .ok (.Subscript (.Name "list") (.Constant (.str "Bar"))) := by
    simp only [ get_type_annotation, arrFooNode, docFooBar, fooTitledBar,
      jsize, jsizeL, jsizeKV]
    rfl
  exact ⟨hout, by rw [hout]; simp⟩

/-- C5 amended: resolving `{"type": "array", "items": {"$ref":
"#/components/schemas/Foo"}}` yields a `list` of the named reference
carrying the `title` of the `Foo` entry; it carries the key `Foo` itself
exactly when that entry's `title` is the string `Foo`. -/
theorem c5_array_ref_title (spec comps schemas foo t : Json)
    (h1 : jsonGetItem spec "components" = .ok comps)
    (h2 : jsonGetItem comps "schemas" = .ok schemas)
    (h3 : jsonGetItem schemas "Foo" = .ok foo)
    (h4 : jsonGetItem foo "title" = .ok t) :
    get_type_annotation arrFooNode spec =
      .ok (.Subscript (.Name "list") (.Constant t)) := by
  have hsw : pyStartsWith "#/components/schemas/Foo" "#/" = true := rfl
  have hsplit : (pySplitSlash "#/components/schemas/Foo").tail =
      ["components", "schemas", "Foo"] := rfl
  have hin : get_type_annotation
      (.obj [("$ref", .str "#/components/schemas/Foo")]) spec =
      .ok (.Constant t) := by
    conv_lhs => rw [ get_type_annotation_eq]
    simp [typeIs, keyIs, refCase, Json.lookup, lookupKV, hsw, hsplit,
      List.foldlM, Bind.bind, Except.bind, Pure.pure, Except.pure, h1, h2, h3, h4]
  conv_lhs => rw [ get_type_annotation_eq]
  simp [arrFooNode, typeIs, keyIs, refCase, Json.lookup, lookupKV, hin]

theorem c5_array_ref_title_witness :
    get_type_annotation arrFooNode docFooFoo =
      .ok (.Subscript (.Name "list") (.Constant (.str "Foo"))) :=
  c5_array_ref_title docFooFoo (.obj [("schemas", .obj [("Foo", fooTitledFoo)])])
    (.obj [("Foo", fooTitledFoo)]) fooTitledFoo (.str "Foo") rfl rfl rfl rfl

/-! ## C3: forward-reference flag vs raw-config reachability -/

theorem scan_imp_has_ref {config : Json} (h : ScanRefReachable config) :
    has_ref config = true := by
  induction h with
  | direct kvs v hv =>
    rw [has_ref_eq]
    simp [Json.lookup, hv]
  | viaItems kvs items href heq _ ihh =>
    rw [has_ref_eq]
    have hnone : (lookupKV kvs "$ref").isSome = false := by simp [href]
    simp only [Json.lookup, hnone, Bool.false_eq_true, if_false]
    split
    · rename_i items2 heq2
      rw [heq] at heq2
      cases heq2
      exact ihh
    · rename_i heq2
      rw [heq] at heq2
      cases heq2
  | viaAnyOf kvs l b href heq hanyof hb _ ihh =>
    rw [has_ref_eq]
    have hnone : (lookupKV kvs "$ref").isSome = false := by simp [href]
    simp only [Json.lookup, hnone, Bool.false_eq_true, if_false]
    split
    · rename_i items2 heq2
      rw [heq] at heq2
      cases heq2
    · split
      · rename_i l2 heq3
        rw [hanyof] at heq3
        cases heq3
        exact List.any_eq_true.mpr ⟨b, hb, ihh⟩
      · rename_i heq3
        exact absurd hanyof (heq3 l)

theorem has_ref_iff_scan (config : Json) :
    has_ref config = true ↔ ScanRefReachable config := by
  constructor
  · intro h
    generalize hn : jsize config = n at *
    induction n using Nat.strong_induction_on generalizing config with
    | _ n ih =>
    subst hn
    rw [has_ref_eq] at h
    split at h
    · rename_i href
      cases config with
      | obj kvs =>
        obtain ⟨v, hv⟩ := Option.isSome_iff_exists.mp href
        exact ScanRefReachable.direct kvs v hv
      | _ => simp [Json.lookup] at href
    · rename_i href
      split at h
      · rename_i items heq
        cases config with
        | obj kvs =>
          have hlt : jsize items < jsize (Json.obj kvs) := by
            split at heq
            · exact lookup_jsize heq
            · cases heq
          refine ScanRefReachable.viaItems kvs items ?_ ?_ ?_
          · cases hcase : lookupKV kvs "$ref" with
            | none => rfl
            | some v => simp [Json.lookup, hcase] at href
          · simpa [Json.lookup] using heq
          · exact ih (jsize items) hlt items h rfl
        | _ =>
          exfalso
          split at heq
          · rename_i hta
            simp [typeIs, Json.lookup] at hta
          · cases heq
      · rename_i heq
        split at h
        · rename_i l heq2
          cases config with
          | obj kvs =>
            obtain ⟨b, hb, hrb⟩ := List.any_eq_true.mp h
            have hlt : jsize b < jsize (Json.obj kvs) := by
              have h1 := lookup_jsize heq2
              have h2 := jsize_mem_arr hb
              omega
            refine ScanRefReachable.viaAnyOf kvs l b ?_ ?_ ?_ hb ?_
            · cases hcase : lookupKV kvs "$ref" with
              | none => rfl
              | some v => simp [Json.lookup, hcase] at href
            · simpa [Json.lookup] using heq
            · simpa [Json.lookup] using heq2
            · exact ih (jsize b) hlt b hrb rfl
          | _ => simp [Json.lookup] at heq2
        · simp at h
  · exact scan_imp_has_ref

/-- C3 as written is false: in `cfgShadow` a `$ref` is reachable through
an `anyOf` branch, yet the scan follows only the array `items` arm, so
the containing model is not flagged — `process_schema` returns no rebuild
statement for it. -/
theorem c3_counterexample :
    RefReachable cfgShadow ∧
    process_schema docShadow "S" schemaShadow =
      .ok (some (.ClassDef "S" [.Name "BaseModel"]
        [.AnnAssign "p" (.Subscript (.Name "list") (.Name "int")) none]), none) := by
  constructor
  · show RefReachable (Json.obj
      [("type", .str "array"),
       ("items", .obj [("type", .str "integer")]),
       ("anyOf", .arr [.obj [("$ref", .str "#/components/schemas/A")]])])
    refine RefReachable.viaAnyOf _ [.obj [("$ref", .str "#/components/schemas/A")]]
      (.obj [("$ref", .str "#/components/schemas/A")]) rfl (by simp) ?_
    exact RefReachable.direct _ (.str "#/components/schemas/A") rfl
  · simp only [process_schema, process_enum_schema, get_fields, get_field,
      get_type_annotation, has_ref, docShadow, schemaShadow, cfgShadow,
      jsize, jsizeL, jsizeKV, List.any]
    rfl

/-- C3 amended: a `ClassModel` is flagged for a post-declaration rebuild
iff some property's raw config has a `$ref` reachable under the scan's
first-match precedence: directly, through the `items` of a node matching
the array pattern and carrying no direct `$ref`, or through an `anyOf`
branch of a node that carries no direct `$ref` and does not match the
array pattern. -/
theorem c3_rebuild_flag (spec : Json) (name : String) (schema : Json)
    (props : List (String × Json)) (m fr : Option PyStmt)
    (hty : typeIs schema "object" = true)
    (hp : schema.lookup "properties" = some (.obj props))
    (hok : process_schema spec name schema = .ok (m, fr)) :
    fr.isSome = true ↔ ∃ p ∈ props, ScanRefReachable p.2 := by
  simp only [process_schema, hty, hp, Option.isSome_some, Bool.and_self,
    if_true, Bool.true_and] at hok
  cases hgf : get_fields spec ((schema.lookup "required").getD (.arr [])) props with
  | error e => rw [hgf] at hok; cases hok
  | ok fields =>
    rw [hgf] at hok
    cases hany : props.any (fun nc => has_ref nc.2) with
    | true =>
      rw [hany] at hok
      cases hok
      simp only [if_true, Option.isSome_some, true_iff]
      obtain ⟨p, hp2, hr⟩ := List.any_eq_true.mp hany
      exact ⟨p, hp2, (has_ref_iff_scan p.2).mp hr⟩
    | false =>
      rw [hany] at hok
      cases hok
      simp only [if_false, Option.isSome_none, Bool.false_eq_true, false_iff]
      intro ⟨p, hp2, hs⟩
      have hcontra : props.any (fun nc => has_ref nc.2) = true := by
        rw [List.any_eq_true]
        exact ⟨p, hp2, (has_ref_iff_scan p.2).mpr hs⟩
      rw [hany] at hcontra
      cases hcontra

theorem c3_rebuild_flag_witness :
    (some (PyStmt.ExprStmt
      (.Call (.Attribute (.Name "A") "update_forward_refs") []))).isSome = true ↔
      ∃ p ∈ [("b", cfgRefB)], ScanRefReachable p.2 :=
  c3_rebuild_flag docRefAB "A" schemaRefA [("b", cfgRefB)]
    (some (.ClassDef "A" [.Name "BaseModel"]
      [.AnnAssign "b" (.Constant (.str "B")) none]))
    (some (.ExprStmt (.Call (.Attribute (.Name "A") "update_forward_refs") [])))
    rfl rfl
    (by
      simp only [process_schema, process_enum_schema, get_fields, get_field,
        get_type_annotation, has_ref, docRefAB, schemaRefA, schemaB, cfgRefB,
        jsize, jsizeL, jsizeKV, List.any]
      rfl)

/-! ## C4: emission order -/

theorem process_schema_snd_shape {spec schema : Json} {n : String}
    {m fr : Option PyStmt}
    (hps : process_schema spec n schema = .ok (m, fr)) :
    ∀ st : PyStmt, fr = some st →
      st = .ExprStmt (.Call (.Attribute (.Name n) "update_forward_refs") []) := by
  intro st hst
  simp only [process_schema] at hps
  split at hps
  · split at hps
    · split at hps
      · split at hps
        · cases hps
          cases hst
          rfl
        · cases hps
          cases hst
      · cases hps
    · cases hps
  · split at hps
    · cases hps
      cases hst
    · cases hps

theorem process_schemas_of_forall₂ {spec : Json} {kvs : List (String × Json)}
    {rs : List (Option PyStmt × Option PyStmt)}
    (h : List.Forall₂ (fun ns r => process_schema spec ns.1 ns.2 = .ok r) kvs rs) :
    process_schemas spec kvs =
      .ok (rs.filterMap Prod.fst, rs.filterMap Prod.snd) := by
  induction h with
  | nil => simp [process_schemas]
  | @cons ns r kvrest rsrest h1 hrest ih =>
    obtain ⟨mm, ff⟩ := r
    simp only [process_schemas, h1, ih]
    cases mm <;> cases ff <;> simp [Option.toList, List.filterMap_cons]

/-- C4: on a document whose schemas each process successfully, the emitted
module body is exactly the fixed import preamble, then the per-schema
model declarations in declaration order, then the rebuild invocations of
the flagged models, after all declarations and in declaration order; a
rebuild entry, when present, is precisely `update_forward_refs()` on the
matching schema's class name. -/
theorem c4_emission_order (spec comps : Json) (kvs : List (String × Json))
    (rs : List (Option PyStmt × Option PyStmt))
    (h1 : jsonGetItem spec "components" = .ok comps)
    (h2 : jsonGetItem comps "schemas" = .ok (.obj kvs))
    (h3 : List.Forall₂ (fun ns r => process_schema spec ns.1 ns.2 = .ok r) kvs rs) :
    openapi_to_pydantic spec =
      .ok (module_imports ++ rs.filterMap Prod.fst ++ rs.filterMap Prod.snd) ∧
    List.Forall₂ (fun ns r => ∀ st : PyStmt, r.2 = some st →
      st = .ExprStmt (.Call (.Attribute (.Name ns.1) "update_forward_refs") []))
      kvs rs := by
  constructor
  · simp [openapi_to_pydantic, h1, h2, process_schemas_of_forall₂ h3]
  · clear h1 h2
    induction h3 with
    | nil => exact List.Forall₂.nil
    | cons hps _ ih => exact List.Forall₂.cons (process_schema_snd_shape hps) ih

theorem c4_emission_order_witness :
    openapi_to_pydantic docRefAB =
      .ok (module_imports ++
        [.ClassDef "A" [.Name "BaseModel"]
          [.AnnAssign "b" (.Constant (.str "B")) none],
         .ClassDef "B" [.Name "BaseModel"]
          [.AnnAssign "x" (.Name "int") none]] ++
        [.ExprStmt (.Call (.Attribute (.Name "A") "update_forward_refs") [])]) := by
  have hA : process_schema docRefAB "A" schemaRefA =
      .ok (some (.ClassDef "A" [.Name "BaseModel"]
        [.AnnAssign "b" (.Constant (.str "B")) none]),
        some (.ExprStmt (.Call (.Attribute (.Name "A") "update_forward_refs") []))) := by
    simp only [process_schema, process_enum_schema, get_fields, get_field,
      get_type_annotation, has_ref, docRefAB, schemaRefA, schemaB, cfgRefB,
      jsize, jsizeL, jsizeKV, List.any]
    rfl
  have hB : process_schema docRefAB "B" schemaB =
      .ok (some (.ClassDef "B" [.Name "BaseModel"]
        [.AnnAssign "x" (.Name "int") none]), none) := by
    simp only [process_schema, process_enum_schema, get_fields, get_field,
      get_type_annotation, has_ref, docRefAB, schemaRefA, schemaB, cfgRefB,
      jsize, jsizeL, jsizeKV, List.any]
    rfl
  have h := c4_emission_order docRefAB
    (.obj [("schemas", .obj [("A", schemaRefA), ("B", schemaB)])])
    [("A", schemaRefA), ("B", schemaB)]
    [(some (.ClassDef "A" [.Name "BaseModel"]
        [.AnnAssign "b" (.Constant (.str "B")) none]),
      some (.ExprStmt (.Call (.Attribute (.Name "A") "update_forward_refs") []))),
     (some (.ClassDef "B" [.Name "BaseModel"]
        [.AnnAssign "x" (.Name "int") none]), none)]
    rfl rfl
    (List.Forall₂.cons hA (List.Forall₂.cons hB List.Forall₂.nil))
  simpa using h.1

/-! ## C9: references hidden under allOf are not flagged -/

theorem get_fields_ok_mem {spec required : Json} {props : List (String × Json)}
    {fs : List PyStmt}
    (h : get_fields spec required props = .ok fs) {p : String × Json}
    (hmem : p ∈ props) :
    ∃ f, get_field p.1 p.2 spec required = .ok f := by
  induction props generalizing fs with
  | nil => simp at hmem
  | cons q rest ih =>
    simp only [get_fields] at h
    cases hq : get_field q.1 q.2 spec required with
    | error e => rw [hq] at h; cases h
    | ok f =>
      rw [hq] at h
      cases hr : get_fields spec required rest with
      | error e => rw [hr] at h; cases h
      | ok fs2 =>
        rcases List.mem_cons.mp hmem with hh | hmem2
        · subst hh
          exact ⟨f, hq⟩
        · exact ih hr hmem2

theorem get_field_ok_gta {name : String} {config spec required : Json} {f : PyStmt}
    (h : get_field name config spec required = .ok f) :
    ∃ t, get_type_annotation config spec = .ok t := by
  simp only [get_field] at h
  cases hn : pyNotIn name required with
  | error e => rw [hn] at h; cases h
  | ok notIn =>
    rw [hn] at h
    cases hg : get_type_annotation config spec with
    | error e => rw [hg] at h; cases h
    | ok t => exact ⟨t, rfl⟩

theorem gta_allof_single (item spec : Json) :
    get_type_annotation (.obj [("allOf", .arr [item])]) spec =
      get_type_annotation item spec := by
  conv_lhs => rw [ get_type_annotation_eq]
  simp [typeIs, keyIs, refCase, Json.lookup, lookupKV]

theorem gta_ref_ok_constant {r : String} {spec : Json} {t : PyExpr}
    (hs : pyStartsWith r "#/" = true)
    (h : get_type_annotation (.obj [("$ref", .str r)]) spec = .ok t) :
    ∃ title, t = .Constant title := by
  rw [ get_type_annotation_eq] at h
  simp [typeIs, keyIs, refCase, Json.lookup, lookupKV, hs] at h
  split at h
  · split at h
    · cases h
      exact ⟨_, rfl⟩
    · cases h
  · cases h

/-- C9: in an object schema whose every property holds its `$ref` only
inside a single-element `allOf` wrapper, each resolved field type is a
named reference (the scan and the resolver disagree), yet `has_ref` is
false for every property and the model receives no rebuild statement. -/
theorem c9_allof_hidden_refs (spec : Json) (name : String) (schema : Json)
    (props : List (String × Json)) (m fr : Option PyStmt)
    (hty : typeIs schema "object" = true)
    (hp : schema.lookup "properties" = some (.obj props))
    (hshape : ∀ p ∈ props, ∃ r : String,
      p.2 = .obj [("allOf", .arr [.obj [("$ref", .str r)]])] ∧
      pyStartsWith r "#/" = true)
    (hok : process_schema spec name schema = .ok (m, fr)) :
    fr = none ∧
    (∀ p ∈ props, has_ref p.2 = false) ∧
    (∀ p ∈ props, ∃ title : Json,
      get_type_annotation p.2 spec = .ok (.Constant title)) := by
  have hbF : ∀ p ∈ props, has_ref p.2 = false := by
    intro p hmem
    obtain ⟨r, hshape2, _⟩ := hshape p hmem
    rw [hshape2, has_ref_eq]
    simp [typeIs, Json.lookup, lookupKV]
  simp only [process_schema, hty, hp, Option.isSome_some, Bool.and_self,
    if_true, Bool.true_and] at hok
  cases hgf : get_fields spec ((schema.lookup "required").getD (.arr [])) props with
  | error e => rw [hgf] at hok; cases hok
  | ok fields =>
    rw [hgf] at hok
    have hany : props.any (fun nc => has_ref nc.2) = false := by
      rw [List.any_eq_false]
      intro p hmem
      simp [hbF p hmem]
    rw [hany] at hok
    simp only [Bool.false_eq_true, if_false] at hok
    cases hok
    refine ⟨rfl, hbF, ?_⟩
    intro p hmem
    obtain ⟨f, hf⟩ := get_fields_ok_mem hgf hmem
    obtain ⟨t, ht⟩ := get_field_ok_gta hf
    obtain ⟨r, hshape2, hsw⟩ := hshape p hmem
    rw [hshape2] at ht
    rw [gta_allof_single] at ht
    obtain ⟨title, rfl⟩ := gta_ref_ok_constant hsw ht
    rw [hshape2, gta_allof_single]
    exact ⟨title, ht⟩

theorem c9_allof_hidden_refs_witness :
    (none : Option PyStmt) = none ∧
    (∀ p ∈ [("b", cfgAllOfRef)], has_ref p.2 = false) ∧
    (∀ p ∈ [("b", cfgAllOfRef)], ∃ title : Json,
      get_type_annotation p.2 docAllOfAB = .ok (.Constant title)) := by
  refine c9_allof_hidden_refs docAllOfAB "A" schemaAllOfA [("b", cfgAllOfRef)]
    (some (.ClassDef "A" [.Name "BaseModel"]
      [.AnnAssign "b" (.Constant (.str "B")) none])) none
    rfl rfl ?_ ?_
  · intro p hmem
    simp only [List.mem_singleton] at hmem
    subst hmem
    exact ⟨"#/components/schemas/B", rfl, by decide⟩
  · simp only [process_schema, process_enum_schema, get_fields, get_field,
      get_type_annotation, has_ref, docAllOfAB, schemaAllOfA, schemaB, cfgAllOfRef,
      jsize, jsizeL, jsizeKV, List.any]
    rfl
